import Mathlib

/-!
Shallow embedding of the Zed extension `zed-mpls` (src/lib.rs), a provisioner
for the `mpls` language server.  Rust side effects (status broadcasts, the
registry query, filesystem probes, downloads, permission changes) are made
explicit as an `Effect` trace; the ambient environment (current platform,
registry answer, filesystem contents, directory listing) is an explicit `Env`
record.  Rust panics (`unreachable!`, string slicing out of bounds,
`Option/Result::unwrap`) are modelled by the `Outcome.panic` constructor.

Modelling notes, all happy-path I/O that no claim depends on:
- `fs::exists` returns `io::Result<bool>`; the source only distinguishes
  `Ok(true)` from everything else, so `Env.fsExistsTrue` records exactly that.
- In `when_offline`, `read_dir`, per-entry `file_type()` and the UTF-8 check on
  names are assumed to succeed: directory entries are `(name, is_dir)` pairs.
- `usize` is target-dependent (Zed extensions are wasm32, where it is 32 bits);
  `Env.usizeMax` carries the machine word's maximum value.
-/

inductive Os where
  | linux
  | mac
  | windows
deriving DecidableEq

/-- Architecture variants of the zed extension API; `x86` is the variant the
source's wildcard arm rejects. -/
inductive Architecture where
  | aarch64
  | x86
  | x8664
deriving DecidableEq

/-- Debug rendering used by the source's error message. -/
def archDebugStr : Architecture → String
  | .aarch64 => "Aarch64"
  | .x86 => "X86"
  | .x8664 => "X8664"

/-- LanguageServerInstallationStatus of the zed extension API. -/
inductive Status where
  | checkingForUpdate
  | downloading
  | failed (msg : String)
  | none
deriving DecidableEq

inductive DownloadedFileType where
  | gzip
  | gzipTar
  | zip
  | uncompressed
deriving DecidableEq

/-- Observable side effects of the extension, in execution order. -/
inductive Effect where
  | whichLookup (bin : String)
  | setStatus (s : Status)
  | queryRegistry
  | fsExists (path : String)
  | readCurrentDir
  | downloadFile (url : String) (dest : String) (ft : DownloadedFileType)
  | makeFileExecutable (path : String)
deriving DecidableEq

/-- Result of a Rust computation that may return `Ok`, return `Err`, or panic. -/
inductive Outcome (α : Type) where
  | ok (a : α)
  | err (e : String)
  | panic (msg : String)
deriving DecidableEq

structure GithubReleaseAsset where
  name : String
  download_url : String
deriving DecidableEq

structure GithubRelease where
  version : String
  assets : List GithubReleaseAsset
deriving DecidableEq

/-- zed::Command (the `env` vector is never set by the source and stays empty). -/
structure Command where
  command : String
  args : List String
deriving DecidableEq

structure Mpls where
  language_server_path : Option String
deriving DecidableEq

/-- Ambient environment: platform report, worktree lookup, registry answer,
filesystem and capability behaviour. -/
structure Env where
  os : Os
  arch : Architecture
  whichMpls : Option String
  registry : Except String GithubRelease
  fsExistsTrue : String → Bool
  downloadErr : String → String → DownloadedFileType → Option String
  mkExecErr : String → Option String
  dirEntries : List (String × Bool)
  usizeMax : Nat

/-- fn platform() of src/lib.rs lines 5-18. -/
def platform (os : Os) (arch : Architecture) : Except String (String × String) :=
  let os_str : String :=
    match os with
    | .linux => "linux"
    | .mac => "darwin"
    | .windows => "windows"
  match arch with
  | .aarch64 => .ok (os_str, "arm64")
  | .x8664 => .ok (os_str, "amd64")
  | a => .error (archDebugStr a ++ " is not supported by MPLS")

/-- File type chosen from the os token (src/lib.rs lines 68-72); `none` models
the `unreachable!` arm. -/
def fileTypeOf (os : String) : Option DownloadedFileType :=
  if os = "windows" then some .zip
  else if os = "linux" ∨ os = "darwin" then some .gzipTar
  else none

/-- String form of the file type (src/lib.rs lines 73-78). -/
def fileTypeStr : DownloadedFileType → String
  | .zip => "zip"
  | .gzipTar => "tar.gz"
  | .gzip => "gz"
  | .uncompressed => ""

/-- Rust's byte slice `&version[1..]`: drops the first byte.  `none` models the
panic when the string is empty or byte 1 is not a character boundary. -/
def stripFirstByte (s : String) : Option String :=
  match s.data with
  | [] => none
  | c :: rest => if c.utf8Size = 1 then some (String.mk rest) else none

def archivedAssetName (ver os arch ext : String) : String :=
  "mpls_" ++ ver ++ "_" ++ os ++ "_" ++ arch ++ "." ++ ext

def unarchivedAssetName (ver os arch : String) : String :=
  "mpls_" ++ ver ++ "_" ++ os ++ "_" ++ arch

/-- Names derived by `when_online` (src/lib.rs lines 68-92). -/
structure Derived where
  file_type : DownloadedFileType
  archived : String
  unarchived : String
  executable : String
deriving DecidableEq

/-- Derivation of file type and asset/executable names from the os and arch
tokens and the raw release version (src/lib.rs lines 68-92). -/
def derive (os arch version : String) : Outcome Derived :=
  match fileTypeOf os with
  | Option.none => .panic "There's a bug in the codebase"
  | some ft =>
    match stripFirstByte version with
    | Option.none => .panic "byte index 1 is out of bounds or not a char boundary"
    | some ver =>
      .ok { file_type := ft
            archived := archivedAssetName ver os arch (fileTypeStr ft)
            unarchived := unarchivedAssetName ver os arch
            executable := unarchivedAssetName ver os arch ++ "/mpls" }

/-- fn Mpls::when_online of src/lib.rs lines 62-117. -/
def Mpls.when_online (env : Env) (m : Mpls) (release : GithubRelease) :
    Mpls × Outcome Unit × List Effect :=
  match platform env.os env.arch with
  | .error e => (m, .err e, [])
  | .ok (os, arch) =>
    match derive os arch release.version with
    | .panic msg => (m, .panic msg, [])
    | .err e => (m, .err e, [])
    | .ok d =>
      if env.fsExistsTrue d.executable then
        match env.mkExecErr d.executable with
        | some e =>
          (m, .err e, [Effect.fsExists d.executable, Effect.makeFileExecutable d.executable])
        | Option.none =>
          ({ language_server_path := some d.executable }, .ok (),
            [Effect.fsExists d.executable, Effect.makeFileExecutable d.executable])
      else
        match release.assets.find? (fun a => a.name == d.archived) with
        | Option.none =>
          (m, .err "Can't find the executable in MPLS GitHub release.",
            [Effect.fsExists d.executable])
        | some asset =>
          let tr2 := [Effect.fsExists d.executable, Effect.setStatus .downloading,
            Effect.downloadFile asset.download_url d.unarchived d.file_type]
          match env.downloadErr asset.download_url d.unarchived d.file_type with
          | some e => (m, .err e, tr2)
          | Option.none =>
            match env.mkExecErr d.executable with
            | some e => (m, .err e, tr2 ++ [Effect.makeFileExecutable d.executable])
            | Option.none =>
              ({ language_server_path := some d.executable }, .ok (),
                tr2 ++ [Effect.makeFileExecutable d.executable])

/-- Longest (possibly empty) run of ASCII digits at the head of a char list,
paired with the remainder; the greedy semantics of the regex piece `[0-9]+`
(whose successor in the pattern is never a digit). -/
def takeDigits : List Char → List Char × List Char
  | [] => ([], [])
  | c :: cs =>
    if c.isDigit then
      let (d, r) := takeDigits cs
      (c :: d, r)
    else ([], c :: cs)

/-- Consume an exact literal at the head of a char list. -/
def dropLit : List Char → List Char → Option (List Char)
  | [], s => some s
  | _ :: _, [] => none
  | p :: ps, c :: cs => if c = p then dropLit ps cs else none

/-- Matcher for the anchored regex
`^mpls_([0-9]+)\.([0-9]+)\.([0-9]+)_{os}_{arch}$` of src/lib.rs line 121,
returning the three captures.  The decomposition is unique because each digit
run is followed by a non-digit, so greedy matching is exact. -/
def matchUnarchived (os arch : String) (name : String) :
    Option (String × String × String) := do
  let r1 ← dropLit "mpls_".data name.data
  let (d1, r2) := takeDigits r1
  if d1 = [] then none else
  let r3 ← match r2 with | '.' :: t => some t | _ => none
  let (d2, r4) := takeDigits r3
  if d2 = [] then none else
  let r5 ← match r4 with | '.' :: t => some t | _ => none
  let (d3, r6) := takeDigits r5
  if d3 = [] then none else
  let r7 ← dropLit ("_" ++ os ++ "_" ++ arch).data r6
  if r7 = [] then some (String.mk d1, String.mk d2, String.mk d3) else none

def digitsToNat (cs : List Char) : Nat :=
  cs.foldl (fun n c => n * 10 + (c.toNat - '0'.toNat)) 0

/-- Rust's `str::parse::<usize>()` restricted to the digit-only strings the
regex captures: fails (PosOverflow) when the value exceeds the machine word's
maximum. -/
def rustParseUsize (maxVal : Nat) (s : String) : Option Nat :=
  if s.data.isEmpty ∨ ¬ s.data.all Char.isDigit then none
  else
    let n := digitsToNat s.data
    if n ≤ maxVal then some n else none

/-- Panic message for `parse().unwrap()` failing on overflow
(src/lib.rs lines 141-145). -/
def parseUnwrapPanic : String := "called Result::unwrap on an Err value: ParseIntError"

/-- Triple a directory name contributes once matched and parsed. -/
def parsedTriple (maxVal : Nat) (os arch name : String) : Option (Nat × Nat × Nat) :=
  match matchUnarchived os arch name with
  | Option.none => none
  | some (d1, d2, d3) =>
    match rustParseUsize maxVal d1, rustParseUsize maxVal d2, rustParseUsize maxVal d3 with
    | some a, some b, some c => some (a, b, c)
    | _, _, _ => none

/-- The directory-scanning loop of src/lib.rs lines 124-147: skip
non-directories, match each name against the pattern, parse the captures with
`unwrap` (hence the possible panic on overflow). -/
def collectTriples (maxVal : Nat) (os arch : String) :
    List (String × Bool) → Outcome (List (Nat × Nat × Nat))
  | [] => .ok []
  | (name, isDir) :: rest =>
    if isDir = false then collectTriples maxVal os arch rest
    else
      match matchUnarchived os arch name with
      | Option.none => collectTriples maxVal os arch rest
      | some (d1, d2, d3) =>
        match rustParseUsize maxVal d1, rustParseUsize maxVal d2, rustParseUsize maxVal d3 with
        | some a, some b, some c =>
          match collectTriples maxVal os arch rest with
          | .ok ts => .ok ((a, b, c) :: ts)
          | o => o
        | _, _, _ => .panic parseUnwrapPanic

/-- Rust's derived lexicographic Ord on (usize, usize, usize), as ≤. -/
def tripleLe (x y : Nat × Nat × Nat) : Bool :=
  decide (x.1 < y.1) ||
    (decide (x.1 = y.1) &&
      (decide (x.2.1 < y.2.1) ||
        (decide (x.2.1 = y.2.1) && decide (x.2.2 ≤ y.2.2))))

def insertTriple (x : Nat × Nat × Nat) : List (Nat × Nat × Nat) → List (Nat × Nat × Nat)
  | [] => [x]
  | y :: ys => if tripleLe x y then x :: y :: ys else y :: insertTriple x ys

/-- Ascending sort by the lexicographic triple order; `Vec::sort()` of
src/lib.rs line 149 (any correct sort produces this list, the order being
total). -/
def sortTriples : List (Nat × Nat × Nat) → List (Nat × Nat × Nat)
  | [] => []
  | x :: xs => insertTriple x (sortTriples xs)

/-- Executable path rebuilt from a version triple (src/lib.rs lines 151-154). -/
def offlinePath (a b c : Nat) (os arch : String) : String :=
  "mpls_" ++ toString a ++ "." ++ toString b ++ "." ++ toString c ++ "_" ++
    os ++ "_" ++ arch ++ "/mpls"

/-- fn Mpls::when_offline of src/lib.rs lines 119-160. -/
def Mpls.when_offline (env : Env) (m : Mpls) : Mpls × Outcome Unit × List Effect :=
  match platform env.os env.arch with
  | .error e => (m, .err e, [])
  | .ok (os, arch) =>
    match collectTriples env.usizeMax os arch env.dirEntries with
    | .panic msg => (m, .panic msg, [Effect.readCurrentDir])
    | .err e => (m, .err e, [Effect.readCurrentDir])
    | .ok version_triples =>
      match (sortTriples version_triples).getLast? with
      | Option.none =>
        (m, .err "No installation of MPLS has found. We can't install it because we have no internet connection.",
          [Effect.readCurrentDir])
      | some t =>
        let executable_path := offlinePath t.1 t.2.1 t.2.2 os arch
        match env.mkExecErr executable_path with
        | some e =>
          (m, .err e, [Effect.readCurrentDir, Effect.makeFileExecutable executable_path])
        | Option.none =>
          ({ language_server_path := some executable_path }, .ok (),
            [Effect.readCurrentDir, Effect.makeFileExecutable executable_path])

/-- fn Mpls::find_language_server of src/lib.rs lines 26-60. -/
def Mpls.find_language_server (env : Env) (m : Mpls) : Mpls × Outcome Unit × List Effect :=
  if m.language_server_path.isSome then (m, .ok (), [])
  else
    match env.whichMpls with
    | some path => ({ language_server_path := some path }, .ok (), [Effect.whichLookup "mpls"])
    | Option.none =>
      let tr0 := [Effect.whichLookup "mpls", Effect.setStatus .checkingForUpdate,
        Effect.queryRegistry]
      match env.registry with
      | .ok release =>
        let (m', out, tr) := Mpls.when_online env m release
        (m', out, tr0 ++ tr)
      | .error _ =>
        let (m', out, tr) := Mpls.when_offline env m
        (m', out, tr0 ++ tr)

/-- fn Mpls::language_server_command of src/lib.rs lines 170-189; a panic in
`find_language_server` unwinds past the status broadcasts. -/
def Mpls.language_server_command (env : Env) (m : Mpls) :
    Mpls × Outcome Command × List Effect :=
  match Mpls.find_language_server env m with
  | (m', .panic msg, tr) => (m', .panic msg, tr)
  | (m', .err e, tr) => (m', .err e, tr ++ [Effect.setStatus (.failed e)])
  | (m', .ok _, tr) =>
    match m'.language_server_path with
    | some path =>
      (m', .ok { command := path,
                 args := ["--enable-emoji", "--enable-wikilinks", "--enable-footnotes"] },
        tr ++ [Effect.setStatus .none])
    | Option.none =>
      (m', .panic "This shouldn't happen. self.install_language_server() is supposed to make self.language_server_path not None",
        tr ++ [Effect.setStatus .none])

/-- fn Extension::new of src/lib.rs lines 164-168. -/
def Mpls.new : Mpls := { language_server_path := none }

/-- Network or filesystem activity (as opposed to a status broadcast). -/
def isIOEffect : Effect → Bool
  | .setStatus _ => false
  | _ => true

/-- Effects that create or modify filesystem state. -/
def isWriteEffect : Effect → Bool
  | .downloadFile _ _ _ => true
  | .makeFileExecutable _ => true
  | _ => false

/-- Triples contributed by a directory listing: directory entries whose name
matches the platform pattern, parsed.  Reference form of the scanning loop. -/
def triplesOf (maxVal : Nat) (os arch : String) (entries : List (String × Bool)) :
    List (Nat × Nat × Nat) :=
  entries.filterMap (fun e => if e.2 then parsedTriple maxVal os arch e.1 else none)

/-- Baseline concrete environment for witnesses. -/
def baseEnv : Env :=
  { os := .linux
    arch := .x8664
    whichMpls := none
    registry := .error "network unreachable"
    fsExistsTrue := fun _ => false
    downloadErr := fun _ _ _ => none
    mkExecErr := fun _ => none
    dirEntries := []
    usizeMax := 2 ^ 32 - 1 }

/-- Environment with an unsupported (x86) architecture and a reachable registry. -/
def envX86 : Env :=
  { baseEnv with arch := .x86, registry := .ok ({ version := "v1.2.3", assets := [] }) }

/-- Environment whose working directory holds the three candidate installs of
the offline-selection example. -/
def envC2 : Env :=
  { baseEnv with dirEntries :=
      [("mpls_1.2.0_linux_amd64", true), ("mpls_1.3.0_linux_amd64", true),
        ("mpls_1.3.0_darwin_amd64", true)] }

/-- Release v1.2.3 without assets. -/
def relC4 : GithubRelease := { version := "v1.2.3", assets := [] }

/-- Environment where the v1.2.3 executable is already unpacked on disk. -/
def envC4 : Env :=
  { baseEnv with
    registry := .ok relC4
    fsExistsTrue := fun p => p == "mpls_1.2.3_linux_amd64/mpls" }

/-- Release v1.2.3 whose only asset does not match the derived archive name. -/
def relAnf : GithubRelease :=
  { version := "v1.2.3"
    assets := [{ name := "other_tool.tar.gz", download_url := "http://x/y" }] }

/-- Names derived for v1.2.3 on (linux, amd64). -/
def dAnf : Derived :=
  { file_type := .gzipTar
    archived := "mpls_1.2.3_linux_amd64.tar.gz"
    unarchived := "mpls_1.2.3_linux_amd64"
    executable := "mpls_1.2.3_linux_amd64/mpls" }

/-- Environment with a reachable registry whose release carries no matching
asset. -/
def envAnf : Env := { baseEnv with registry := .ok relAnf }

/-- Environment whose working directory holds no matching installation. -/
def envC6 : Env :=
  { baseEnv with dirEntries := [("README.md", false), ("mpls_1.0.0_darwin_amd64", true)] }

/-- Environment where the executable is found on the worktree search path. -/
def env7 : Env := { baseEnv with whichMpls := some "/usr/local/bin/mpls" }

/-- Instance state caching the search-path executable. -/
def mplsCachedUsr : Mpls := { language_server_path := some "/usr/local/bin/mpls" }

/-- Launch command for the search-path executable. -/
def cmdUsr : Command :=
  { command := "/usr/local/bin/mpls"
    args := ["--enable-emoji", "--enable-wikilinks", "--enable-footnotes"] }

/-- Instance state caching an ambient executable. -/
def mplsCachedOpt : Mpls := { language_server_path := some "/opt/mpls" }

/-- Launch command for the ambient executable. -/
def cmdOpt : Command :=
  { command := "/opt/mpls"
    args := ["--enable-emoji", "--enable-wikilinks", "--enable-footnotes"] }

/-- Environment with an empty release version string. -/
def env9 : Env := { baseEnv with registry := .ok ({ version := "", assets := [] }) }

/-- Release with the empty version string. -/
def rel9 : GithubRelease := { version := "", assets := [] }

/-- Working directory holding a matching name whose major component overflows a
32-bit usize (the word size of the wasm32 target Zed extensions compile to). -/
def envOverflow32 : Env :=
  { baseEnv with dirEntries := [("mpls_4294967296.0.0_linux_amd64", true)] }

/-- Working directory holding a matching name whose major component overflows a
64-bit usize. -/
def envOverflow64 : Env :=
  { baseEnv with
    usizeMax := 2 ^ 64 - 1
    dirEntries := [("mpls_18446744073709551616.0.0_linux_amd64", true)] }

theorem tripleLe_refl (x : Nat × Nat × Nat) : tripleLe x x = true := by
  simp [tripleLe]

theorem tripleLe_total (x y : Nat × Nat × Nat) :
    tripleLe x y = true ∨ tripleLe y x = true := by
  simp only [tripleLe, Bool.or_eq_true, Bool.and_eq_true, decide_eq_true_eq]
  omega

theorem tripleLe_trans {x y z : Nat × Nat × Nat}
    (h1 : tripleLe x y = true) (h2 : tripleLe y z = true) : tripleLe x z = true := by
  simp only [tripleLe, Bool.or_eq_true, Bool.and_eq_true, decide_eq_true_eq] at h1 h2 ⊢
  omega

theorem mem_insertTriple {a x : Nat × Nat × Nat} {l : List (Nat × Nat × Nat)} :
    a ∈ insertTriple x l ↔ a = x ∨ a ∈ l := by
  induction l with
  | nil => simp [insertTriple]
  | cons y ys ih =>
    by_cases h : tripleLe x y = true
    · simp [insertTriple, h]
    · simp only [insertTriple, if_neg h, List.mem_cons, ih]
      tauto

theorem pairwise_insertTriple {x : Nat × Nat × Nat} {l : List (Nat × Nat × Nat)}
    (h : l.Pairwise (fun a b => tripleLe a b = true)) :
    (insertTriple x l).Pairwise (fun a b => tripleLe a b = true) := by
  induction l with
  | nil => simp [insertTriple]
  | cons y ys ih =>
    rcases List.pairwise_cons.mp h with ⟨hy, hys⟩
    by_cases hxy : tripleLe x y = true
    · rw [insertTriple, if_pos hxy]
      refine List.pairwise_cons.mpr ⟨?_, h⟩
      intro b hb
      rcases List.mem_cons.mp hb with rfl | hb
      · exact hxy
      · exact tripleLe_trans hxy (hy b hb)
    · rw [insertTriple, if_neg hxy]
      refine List.pairwise_cons.mpr ⟨?_, ih hys⟩
      intro b hb
      rcases mem_insertTriple.mp hb with rfl | hb
      · rcases tripleLe_total b y with h' | h'
        · exact absurd h' hxy
        · exact h'
      · exact hy b hb

theorem pairwise_sortTriples (l : List (Nat × Nat × Nat)) :
    (sortTriples l).Pairwise (fun a b => tripleLe a b = true) := by
  induction l with
  | nil => simp [sortTriples]
  | cons x xs ih => exact pairwise_insertTriple ih

theorem mem_sortTriples {a : Nat × Nat × Nat} {l : List (Nat × Nat × Nat)} :
    a ∈ sortTriples l ↔ a ∈ l := by
  induction l with
  | nil => simp [sortTriples]
  | cons x xs ih => simp [sortTriples, mem_insertTriple, ih]

theorem insertTriple_ne_nil (x : Nat × Nat × Nat) (l : List (Nat × Nat × Nat)) :
    insertTriple x l ≠ [] := by
  cases l with
  | nil => simp [insertTriple]
  | cons y ys => by_cases h : tripleLe x y = true <;> simp [insertTriple, h]

theorem sortTriples_eq_nil {l : List (Nat × Nat × Nat)} :
    sortTriples l = [] ↔ l = [] := by
  cases l with
  | nil => simp [sortTriples]
  | cons x xs => simp [sortTriples, insertTriple_ne_nil]

theorem getLast?_pairwise_max {l : List (Nat × Nat × Nat)} {t : Nat × Nat × Nat}
    (hp : l.Pairwise (fun a b => tripleLe a b = true))
    (hl : l.getLast? = some t) : ∀ u ∈ l, tripleLe u t = true := by
  induction l with
  | nil => simp at hl
  | cons x xs ih =>
    intro u hu
    cases xs with
    | nil =>
      simp only [List.getLast?_singleton, Option.some.injEq] at hl
      rcases List.mem_singleton.mp hu with rfl
      rw [hl]
      exact tripleLe_refl _
    | cons y ys =>
      have hl' : (y :: ys).getLast? = some t := hl
      rcases List.pairwise_cons.mp hp with ⟨hx, hxs⟩
      rcases List.mem_cons.mp hu with rfl | hu
      · exact hx t (List.mem_of_mem_getLast? hl')
      · exact ih hxs hl' u hu

theorem sortTriples_max {l : List (Nat × Nat × Nat)} (hne : l ≠ []) :
    ∃ t, (sortTriples l).getLast? = some t ∧ t ∈ l ∧ ∀ u ∈ l, tripleLe u t = true := by
  cases hlast : (sortTriples l).getLast? with
  | none => exact absurd (sortTriples_eq_nil.mp (List.getLast?_eq_none_iff.mp hlast)) hne
  | some t =>
    refine ⟨t, rfl, mem_sortTriples.mp (List.mem_of_mem_getLast? hlast), ?_⟩
    intro u hu
    exact getLast?_pairwise_max (pairwise_sortTriples l) hlast u (mem_sortTriples.mpr hu)

theorem collectTriples_ok_eq {maxVal : Nat} {os arch : String} :
    ∀ {entries : List (String × Bool)} {ts : List (Nat × Nat × Nat)},
      collectTriples maxVal os arch entries = .ok ts →
      ts = triplesOf maxVal os arch entries := by
  intro entries
  induction entries with
  | nil =>
    intro ts h
    simp only [collectTriples, Outcome.ok.injEq] at h
    simp [triplesOf, ← h]
  | cons e rest ih =>
    intro ts h
    obtain ⟨name, isDir⟩ := e
    cases isDir with
    | false =>
      simp only [collectTriples, if_pos rfl] at h
      simpa [triplesOf] using ih h
    | true =>
      simp only [collectTriples] at h
      rw [if_neg (by simp)] at h
      cases hm : matchUnarchived os arch name with
      | none =>
        rw [hm] at h
        dsimp only at h
        rw [ih h]
        simp [triplesOf, List.filterMap_cons, parsedTriple, hm]
      | some trip =>
        obtain ⟨d1, d2, d3⟩ := trip
        rw [hm] at h
        dsimp only at h
        cases h1 : rustParseUsize maxVal d1 with
        | none => rw [h1] at h; cases h
        | some a =>
          cases h2 : rustParseUsize maxVal d2 with
          | none => rw [h1, h2] at h; cases h
          | some b =>
            cases h3 : rustParseUsize maxVal d3 with
            | none => rw [h1, h2, h3] at h; cases h
            | some c =>
              rw [h1, h2, h3] at h
              dsimp only at h
              cases hrest : collectTriples maxVal os arch rest with
              | ok ts' =>
                rw [hrest] at h
                simp only [Outcome.ok.injEq] at h
                subst h
                rw [ih hrest]
                simp [triplesOf, List.filterMap_cons, parsedTriple, hm, h1, h2, h3]
              | err e => rw [hrest] at h; cases h
              | panic msg => rw [hrest] at h; cases h

theorem collectTriples_nomatch {maxVal : Nat} {os arch : String}
    {entries : List (String × Bool)}
    (h : ∀ p ∈ entries, p.2 = false ∨ matchUnarchived os arch p.1 = none) :
    collectTriples maxVal os arch entries = .ok [] := by
  induction entries with
  | nil => rfl
  | cons e rest ih =>
    obtain ⟨name, isDir⟩ := e
    have hrest := ih (fun p hp => h p (List.mem_cons_of_mem _ hp))
    rcases h (name, isDir) (List.mem_cons_self _ _) with h1 | h1
    · simp only at h1
      subst h1
      simpa [collectTriples] using hrest
    · simp only at h1
      cases isDir with
      | false => simpa [collectTriples] using hrest
      | true => simp [collectTriples, h1, hrest]

theorem when_online_no_readCurrentDir (env : Env) (m : Mpls) (r : GithubRelease) :
    Effect.readCurrentDir ∉ (Mpls.when_online env m r).2.2 := by
  unfold Mpls.when_online
  split
  · simp
  · split
    · simp
    · simp
    · split
      · split <;> simp
      · split
        · simp
        · split
          · simp
          · split <;> simp

theorem fileTypeOf_of_platform {o : Os} {a : Architecture} {os arch : String}
    (hplat : platform o a = .ok (os, arch)) : ∃ ft, fileTypeOf os = some ft := by
  cases o <;> cases a <;> simp only [platform, Except.ok.injEq, Prod.mk.injEq] at hplat <;>
    first
      | exact Except.noConfusion hplat
      | exact ⟨_, by rw [← hplat.1]; rfl⟩

theorem derive_ok {o : Os} {a : Architecture} {os arch : String}
    (hplat : platform o a = .ok (os, arch)) {version ver : String}
    (hver : stripFirstByte version = some ver) :
    ∃ ft, fileTypeOf os = some ft ∧
      derive os arch version = .ok
        { file_type := ft
          archived := archivedAssetName ver os arch (fileTypeStr ft)
          unarchived := unarchivedAssetName ver os arch
          executable := unarchivedAssetName ver os arch ++ "/mpls" } := by
  obtain ⟨ft, hft⟩ := fileTypeOf_of_platform hplat
  refine ⟨ft, hft, ?_⟩
  simp [derive, hft, hver]

theorem find_cached {env : Env} {m : Mpls} {p : String}
    (hm : m.language_server_path = some p) :
    Mpls.find_language_server env m = (m, .ok (), []) := by
  unfold Mpls.find_language_server
  rw [hm]
  rfl

theorem find_which {env : Env} {m : Mpls} {p : String}
    (hm : m.language_server_path = none) (hw : env.whichMpls = some p) :
    Mpls.find_language_server env m =
      ({ language_server_path := some p }, .ok (), [Effect.whichLookup "mpls"]) := by
  unfold Mpls.find_language_server
  rw [hm, hw]
  rfl

theorem find_no_cache_no_which {env : Env} {m : Mpls}
    (hm : m.language_server_path = none) (hw : env.whichMpls = none) :
    Mpls.find_language_server env m =
      (match env.registry with
       | .ok r =>
         ((Mpls.when_online env m r).1, (Mpls.when_online env m r).2.1,
           [Effect.whichLookup "mpls", Effect.setStatus .checkingForUpdate,
            Effect.queryRegistry] ++ (Mpls.when_online env m r).2.2)
       | .error _ =>
         ((Mpls.when_offline env m).1, (Mpls.when_offline env m).2.1,
           [Effect.whichLookup "mpls", Effect.setStatus .checkingForUpdate,
            Effect.queryRegistry] ++ (Mpls.when_offline env m).2.2)) := by
  unfold Mpls.find_language_server
  rw [hm, hw]
  rcases hreg : env.registry with e | r <;> rfl

theorem lsc_ok_inv {env : Env} {m m' : Mpls} {cmd : Command} {tr : List Effect}
    (h : Mpls.language_server_command env m = (m', .ok cmd, tr)) :
    m'.language_server_path = some cmd.command ∧
    cmd.args = ["--enable-emoji", "--enable-wikilinks", "--enable-footnotes"] := by
  unfold Mpls.language_server_command at h
  rcases hf : Mpls.find_language_server env m with ⟨m₀, out, tr₀⟩
  rw [hf] at h
  cases out with
  | panic msg => simp at h
  | err e => simp at h
  | ok u =>
    dsimp only at h
    cases hp : m₀.language_server_path with
    | none => rw [hp] at h; simp at h
    | some path =>
      rw [hp] at h
      simp only [Prod.mk.injEq, Outcome.ok.injEq] at h
      obtain ⟨hm', hcmd, -⟩ := h
      subst hm'
      rw [← hcmd]
      exact ⟨hp, rfl⟩

theorem archived_pretty (cs : List Char) :
    archivedAssetName (String.mk cs) "linux" "amd64" "tar.gz" =
      "mpls_" ++ String.mk cs ++ "_linux_amd64.tar.gz" := by
  apply String.ext
  simp only [archivedAssetName, String.data_append, List.append_assoc]
  rfl

theorem unarchived_pretty (cs : List Char) :
    unarchivedAssetName (String.mk cs) "linux" "amd64" =
      "mpls_" ++ String.mk cs ++ "_linux_amd64" := by
  apply String.ext
  simp only [unarchivedAssetName, String.data_append, List.append_assoc]
  rfl

theorem executable_pretty (cs : List Char) :
    unarchivedAssetName (String.mk cs) "linux" "amd64" ++ "/mpls" =
      "mpls_" ++ String.mk cs ++ "_linux_amd64/mpls" := by
  apply String.ext
  simp only [unarchivedAssetName, String.data_append, List.append_assoc]
  rfl

theorem stripFirstByte_cons (c : Char) (cs : List Char) (h : c.utf8Size = 1) :
    stripFirstByte (String.mk (c :: cs)) = some (String.mk cs) := by
  simp [stripFirstByte, h]

/-- C1: for every release whose version string starts with the prefix
character `v` and the platform (linux, amd64), the online provisioner derives
the archived asset name as the tool name, the stripped version, the os token,
the arch token and the tar.gz extension joined as
`mpls_<ver>_linux_amd64.tar.gz`, and the executable path as
`mpls_<ver>_linux_amd64/mpls`; for version v1.2.3 these are exactly
`mpls_1.2.3_linux_amd64.tar.gz` and `mpls_1.2.3_linux_amd64/mpls` (and on
windows the extension is zip). -/
theorem c1_derived_names :
    platform Os.linux Architecture.x8664 = .ok ("linux", "amd64") ∧
    (∀ cs : List Char,
      derive "linux" "amd64" (String.mk ('v' :: cs)) = .ok
        { file_type := .gzipTar
          archived := "mpls_" ++ String.mk cs ++ "_linux_amd64.tar.gz"
          unarchived := "mpls_" ++ String.mk cs ++ "_linux_amd64"
          executable := "mpls_" ++ String.mk cs ++ "_linux_amd64/mpls" }) ∧
    derive "linux" "amd64" "v1.2.3" = .ok
      { file_type := .gzipTar
        archived := "mpls_1.2.3_linux_amd64.tar.gz"
        unarchived := "mpls_1.2.3_linux_amd64"
        executable := "mpls_1.2.3_linux_amd64/mpls" } ∧
    derive "windows" "amd64" "v1.2.3" = .ok
      { file_type := .zip
        archived := "mpls_1.2.3_windows_amd64.zip"
        unarchived := "mpls_1.2.3_windows_amd64"
        executable := "mpls_1.2.3_windows_amd64/mpls" } := by
  refine ⟨rfl, ?_, rfl, rfl⟩
  intro cs
  have hstrip := stripFirstByte_cons 'v' cs (by decide)
  unfold derive
  rw [show fileTypeOf "linux" = some DownloadedFileType.gzipTar from rfl, hstrip]
  dsimp only
  rw [Outcome.ok.injEq, Derived.mk.injEq]
  exact ⟨rfl, archived_pretty cs, unarchived_pretty cs, executable_pretty cs⟩

/-- C9: version normalization drops exactly the first character, whatever it
is (a 1-byte first character; version `1.2.3` yields names containing `.2.3`),
and for the empty version string the online provisioner panics instead of
returning an error. -/
theorem c9_version_slice :
    (∀ (c : Char) (cs : List Char), c.utf8Size = 1 →
      stripFirstByte (String.mk (c :: cs)) = some (String.mk cs)) ∧
    derive "linux" "amd64" "1.2.3" = .ok
      { file_type := .gzipTar
        archived := "mpls_.2.3_linux_amd64.tar.gz"
        unarchived := "mpls_.2.3_linux_amd64"
        executable := "mpls_.2.3_linux_amd64/mpls" } ∧
    stripFirstByte "" = none ∧
    (∀ (env : Env) (m : Mpls) (release : GithubRelease) (os arch : String),
      platform env.os env.arch = .ok (os, arch) → release.version = "" →
      (Mpls.when_online env m release).2.1 =
        .panic "byte index 1 is out of bounds or not a char boundary") := by
  refine ⟨fun c cs h => stripFirstByte_cons c cs h, rfl, rfl, ?_⟩
  intro env m release os arch hplat hver
  obtain ⟨ft, hft⟩ := fileTypeOf_of_platform hplat
  have hd : derive os arch release.version =
      .panic "byte index 1 is out of bounds or not a char boundary" := by
    rw [hver]
    unfold derive
    rw [hft, show stripFirstByte "" = (none : Option String) from rfl]
  unfold Mpls.when_online
  rw [hplat]
  dsimp only
  rw [hd]

/-- C10: the source comment asserts that `parse().unwrap()` on the regex
captures never panics, but a matching directory name whose digit run exceeds
the machine word's maximum makes `parse::<usize>()` return Err(PosOverflow),
so the unwrap panics and the offline provisioner is not total; shown for both
the 32-bit (wasm32) and 64-bit word sizes. -/
theorem c10_parse_overflow_panics :
    matchUnarchived "linux" "amd64" "mpls_4294967296.0.0_linux_amd64" =
      some ("4294967296", "0", "0") ∧
    rustParseUsize (2 ^ 32 - 1) "4294967296" = none ∧
    (Mpls.when_offline envOverflow32 Mpls.new).2.1 = .panic parseUnwrapPanic ∧
    rustParseUsize (2 ^ 64 - 1) "18446744073709551616" = none ∧
    (Mpls.when_offline envOverflow64 Mpls.new).2.1 = .panic parseUnwrapPanic :=
  ⟨rfl, rfl, rfl, rfl, rfl⟩

/-- C5 counterexample: with the unsupported x86 architecture, a reachable
registry, nothing cached and no ambient executable, resolution does fail with
an error naming the architecture, but only after a checking-for-update status
broadcast and the registry query have already happened — refuting the claim
that no side effects occur before the failure. -/
theorem c5_unsupported_arch_cex :
    (Mpls.find_language_server envX86 Mpls.new).2.1 = .err "X86 is not supported by MPLS" ∧
    Effect.setStatus .checkingForUpdate ∈ (Mpls.find_language_server envX86 Mpls.new).2.2 ∧
    Effect.queryRegistry ∈ (Mpls.find_language_server envX86 Mpls.new).2.2 := by
  refine ⟨rfl, ?_, ?_⟩ <;> decide

/-- C5 amended: with an unsupported (x86) architecture, no cached path and no
ambient executable, resolution fails with an error naming the offending
architecture value, but the failure happens after the worktree lookup, the
checking-for-update broadcast and the registry query; no download, no
downloading broadcast and no filesystem write occurs. -/
theorem c5_unsupported_arch_amended (env : Env) (m : Mpls)
    (harch : env.arch = .x86) (hm : m.language_server_path = none)
    (hw : env.whichMpls = none) :
    (Mpls.find_language_server env m).2.1 = .err "X86 is not supported by MPLS" ∧
    (Mpls.find_language_server env m).2.2 =
      [Effect.whichLookup "mpls", Effect.setStatus .checkingForUpdate,
        Effect.queryRegistry] ∧
    ∀ e ∈ (Mpls.find_language_server env m).2.2, isWriteEffect e = false := by
  have hplat : platform env.os env.arch = .error "X86 is not supported by MPLS" := by
    rw [harch]; cases env.os <;> rfl
  have honline : ∀ r, Mpls.when_online env m r =
      (m, .err "X86 is not supported by MPLS", []) := by
    intro r
    unfold Mpls.when_online
    rw [hplat]
  have hoffline : Mpls.when_offline env m =
      (m, .err "X86 is not supported by MPLS", []) := by
    unfold Mpls.when_offline
    rw [hplat]
  have hfind : Mpls.find_language_server env m =
      (m, .err "X86 is not supported by MPLS",
        [Effect.whichLookup "mpls", Effect.setStatus .checkingForUpdate,
          Effect.queryRegistry]) := by
    rw [find_no_cache_no_which hm hw]
    rcases hreg : env.registry with e | r
    · dsimp only
      simp [hoffline]
    · dsimp only
      simp [honline r]
  rw [hfind]
  refine ⟨rfl, rfl, ?_⟩
  show ∀ e ∈ [Effect.whichLookup "mpls", Effect.setStatus .checkingForUpdate,
    Effect.queryRegistry], isWriteEffect e = false
  decide

/-- C5 amended witness at the concrete x86 environment. -/
theorem c5_unsupported_arch_amended_witness :
    (Mpls.find_language_server envX86 Mpls.new).2.2 =
      [Effect.whichLookup "mpls", Effect.setStatus .checkingForUpdate,
        Effect.queryRegistry] ∧
    ∀ e ∈ (Mpls.find_language_server envX86 Mpls.new).2.2, isWriteEffect e = false :=
  ⟨(c5_unsupported_arch_amended envX86 Mpls.new rfl rfl rfl).2.1,
   (c5_unsupported_arch_amended envX86 Mpls.new rfl rfl rfl).2.2⟩

/-- C4: when the expected executable already exists on disk, the online
provisioner records no download, broadcasts no downloading status, never
consults the asset list (its outcome is independent of the assets), and — the
make-executable capability succeeding — returns that existing executable path. -/
theorem c4_reuse (env : Env) (m : Mpls) (release : GithubRelease) (os arch ver : String)
    (hplat : platform env.os env.arch = .ok (os, arch))
    (hver : stripFirstByte release.version = some ver)
    (hex : env.fsExistsTrue (unarchivedAssetName ver os arch ++ "/mpls") = true) :
    (Mpls.when_online env m release).2.2 =
      [Effect.fsExists (unarchivedAssetName ver os arch ++ "/mpls"),
       Effect.makeFileExecutable (unarchivedAssetName ver os arch ++ "/mpls")] ∧
    (∀ u d ft, Effect.downloadFile u d ft ∉ (Mpls.when_online env m release).2.2) ∧
    Effect.setStatus .downloading ∉ (Mpls.when_online env m release).2.2 ∧
    (∀ assets', Mpls.when_online env m { release with assets := assets' } =
      Mpls.when_online env m release) ∧
    (env.mkExecErr (unarchivedAssetName ver os arch ++ "/mpls") = none →
      (Mpls.when_online env m release).2.1 = .ok () ∧
      (Mpls.when_online env m release).1.language_server_path =
        some (unarchivedAssetName ver os arch ++ "/mpls")) := by
  obtain ⟨ft, hft, hder⟩ := derive_ok hplat hver
  have key : ∀ rel : GithubRelease, rel.version = release.version →
      Mpls.when_online env m rel =
        (match env.mkExecErr (unarchivedAssetName ver os arch ++ "/mpls") with
         | some e => (m, .err e,
             [Effect.fsExists (unarchivedAssetName ver os arch ++ "/mpls"),
              Effect.makeFileExecutable (unarchivedAssetName ver os arch ++ "/mpls")])
         | Option.none =>
           ({ language_server_path := some (unarchivedAssetName ver os arch ++ "/mpls") },
             .ok (),
             [Effect.fsExists (unarchivedAssetName ver os arch ++ "/mpls"),
              Effect.makeFileExecutable (unarchivedAssetName ver os arch ++ "/mpls")])) := by
    intro rel hrel
    unfold Mpls.when_online
    rw [hplat]
    dsimp only
    rw [hrel, hder]
    dsimp only
    rw [hex]
    rfl
  constructor
  · rw [key release rfl]
    cases hmk : env.mkExecErr (unarchivedAssetName ver os arch ++ "/mpls") <;> rfl
  refine ⟨?_, ?_, ?_, ?_⟩
  · intro u d ft'
    rw [key release rfl]
    cases hmk : env.mkExecErr (unarchivedAssetName ver os arch ++ "/mpls") <;> simp
  · rw [key release rfl]
    cases hmk : env.mkExecErr (unarchivedAssetName ver os arch ++ "/mpls") <;> simp
  · intro assets'
    rw [key { release with assets := assets' } rfl, key release rfl]
  · intro hmk
    rw [key release rfl, hmk]
    exact ⟨rfl, rfl⟩

/-- C4 witness: with release v1.2.3 and the executable already on disk, the
trace is exactly the existence probe and the permission change, the outcome is
success at the existing path, and the result is independent of the asset list. -/
theorem c4_reuse_witness :
    (Mpls.when_online envC4 Mpls.new relC4).2.2 =
      [Effect.fsExists (unarchivedAssetName "1.2.3" "linux" "amd64" ++ "/mpls"),
       Effect.makeFileExecutable (unarchivedAssetName "1.2.3" "linux" "amd64" ++ "/mpls")] ∧
    (∀ u d ft, Effect.downloadFile u d ft ∉ (Mpls.when_online envC4 Mpls.new relC4).2.2) ∧
    Effect.setStatus .downloading ∉ (Mpls.when_online envC4 Mpls.new relC4).2.2 ∧
    (∀ assets', Mpls.when_online envC4 Mpls.new { relC4 with assets := assets' } =
      Mpls.when_online envC4 Mpls.new relC4) ∧
    (envC4.mkExecErr (unarchivedAssetName "1.2.3" "linux" "amd64" ++ "/mpls") = none →
      (Mpls.when_online envC4 Mpls.new relC4).2.1 = .ok () ∧
      (Mpls.when_online envC4 Mpls.new relC4).1.language_server_path =
        some (unarchivedAssetName "1.2.3" "linux" "amd64" ++ "/mpls")) :=
  c4_reuse envC4 Mpls.new relC4 "linux" "amd64" "1.2.3" rfl rfl rfl

/-- C6: when no directory entry matches the current platform's pattern, the
offline provisioner fails with the NoInstallationFound message (naming both
the missing installation and the missing connectivity), its trace is only the
directory read — no write effect, no directory created or modified — and the
cached state is unchanged. -/
theorem c6_no_install (env : Env) (m : Mpls) (os arch : String)
    (hplat : platform env.os env.arch = .ok (os, arch))
    (hnone : ∀ p ∈ env.dirEntries, p.2 = false ∨ matchUnarchived os arch p.1 = none) :
    (Mpls.when_offline env m).2.1 =
      .err "No installation of MPLS has found. We can't install it because we have no internet connection." ∧
    (Mpls.when_offline env m).2.2 = [Effect.readCurrentDir] ∧
    (∀ e ∈ (Mpls.when_offline env m).2.2, isWriteEffect e = false) ∧
    (Mpls.when_offline env m).1 = m := by
  have hw : Mpls.when_offline env m =
      (m, .err "No installation of MPLS has found. We can't install it because we have no internet connection.",
        [Effect.readCurrentDir]) := by
    unfold Mpls.when_offline
    rw [hplat]
    dsimp only
    rw [collectTriples_nomatch hnone]
    rfl
  rw [hw]
  refine ⟨rfl, rfl, ?_, rfl⟩
  show ∀ e ∈ [Effect.readCurrentDir], isWriteEffect e = false
  decide

/-- C6 witness: a listing with only a non-directory entry and a darwin install
under the (linux, amd64) platform yields the NoInstallationFound error and a
read-only trace. -/
theorem c6_no_install_witness :
    (Mpls.when_offline envC6 Mpls.new).2.1 =
      .err "No installation of MPLS has found. We can't install it because we have no internet connection." ∧
    (Mpls.when_offline envC6 Mpls.new).2.2 = [Effect.readCurrentDir] ∧
    (∀ e ∈ (Mpls.when_offline envC6 Mpls.new).2.2, isWriteEffect e = false) ∧
    (Mpls.when_offline envC6 Mpls.new).1 = Mpls.new :=
  c6_no_install envC6 Mpls.new "linux" "amd64" rfl (by decide)

/-- C2: the offline provisioner considers exactly the directory entries whose
names match the `mpls_<major>.<minor>.<patch>_<os>_<arch>` pattern for this
platform's exact tokens (entries for other platforms contribute nothing), and
returns the executable path rebuilt from the maximum triple under the
lexicographic order on (major, minor, patch). -/
theorem c2_offline_max (env : Env) (m : Mpls) (os arch : String)
    (ts : List (Nat × Nat × Nat))
    (hplat : platform env.os env.arch = .ok (os, arch))
    (hcol : collectTriples env.usizeMax os arch env.dirEntries = .ok ts)
    (hne : ts ≠ [])
    (hmk : ∀ p, env.mkExecErr p = none) :
    ∃ t, t ∈ ts ∧ (∀ u ∈ ts, tripleLe u t = true) ∧
      (∀ u, u ∈ ts ↔ ∃ name, (name, true) ∈ env.dirEntries ∧
        parsedTriple env.usizeMax os arch name = some u) ∧
      Mpls.when_offline env m =
        ({ language_server_path := some (offlinePath t.1 t.2.1 t.2.2 os arch) },
          .ok (),
          [Effect.readCurrentDir,
           Effect.makeFileExecutable (offlinePath t.1 t.2.1 t.2.2 os arch)]) := by
  obtain ⟨t, hlast, htmem, hmax⟩ := sortTriples_max hne
  refine ⟨t, htmem, hmax, ?_, ?_⟩
  · intro u
    constructor
    · intro hu
      rw [collectTriples_ok_eq hcol] at hu
      obtain ⟨⟨name, isDir⟩, hmem, hf⟩ := List.mem_filterMap.mp hu
      cases isDir with
      | false => simp at hf
      | true => exact ⟨name, hmem, by simpa using hf⟩
    · rintro ⟨name, hmem, hpt⟩
      rw [collectTriples_ok_eq hcol]
      exact List.mem_filterMap.mpr ⟨(name, true), hmem, by simpa using hpt⟩
  · unfold Mpls.when_offline
    rw [hplat]
    dsimp only
    rw [hcol]
    dsimp only
    rw [hlast]
    dsimp only
    rw [hmk]

/-- C2 witness: among mpls_1.2.0_linux_amd64, mpls_1.3.0_linux_amd64 and
mpls_1.3.0_darwin_amd64 under (linux, amd64), the offline provisioner selects
mpls_1.3.0_linux_amd64 — the darwin entry is excluded. -/
theorem c2_offline_max_witness :
    (∃ t, t ∈ ([(1,2,0),(1,3,0)] : List (Nat × Nat × Nat)) ∧
      (∀ u ∈ ([(1,2,0),(1,3,0)] : List (Nat × Nat × Nat)), tripleLe u t = true) ∧
      (∀ u, u ∈ ([(1,2,0),(1,3,0)] : List (Nat × Nat × Nat)) ↔
        ∃ name, (name, true) ∈ envC2.dirEntries ∧
          parsedTriple envC2.usizeMax "linux" "amd64" name = some u) ∧
      Mpls.when_offline envC2 Mpls.new =
        ({ language_server_path := some (offlinePath t.1 t.2.1 t.2.2 "linux" "amd64") },
          .ok (),
          [Effect.readCurrentDir,
           Effect.makeFileExecutable (offlinePath t.1 t.2.1 t.2.2 "linux" "amd64")])) ∧
    (Mpls.when_offline envC2 Mpls.new).1.language_server_path =
      some "mpls_1.3.0_linux_amd64/mpls" :=
  ⟨c2_offline_max envC2 Mpls.new "linux" "amd64" [(1,2,0),(1,3,0)] rfl rfl
      (by decide) (fun p => rfl),
   by rfl⟩

/-- C3: with nothing cached and no ambient executable, the offline provisioner
runs exactly when the registry query fails; when the query succeeds the
resolution's outcome is the online provisioner's outcome and the directory
scan never happens, and in particular a missing asset yields the
AssetNotFound error without offline fallback. -/
theorem c3_fallback (env : Env) (m : Mpls)
    (hm : m.language_server_path = none) (hw : env.whichMpls = none) :
    (∀ e, env.registry = .error e →
      (Mpls.find_language_server env m).2.1 = (Mpls.when_offline env m).2.1 ∧
      (Mpls.find_language_server env m).2.2 =
        [Effect.whichLookup "mpls", Effect.setStatus .checkingForUpdate,
          Effect.queryRegistry] ++ (Mpls.when_offline env m).2.2) ∧
    (∀ r, env.registry = .ok r →
      (Mpls.find_language_server env m).2.1 = (Mpls.when_online env m r).2.1 ∧
      Effect.readCurrentDir ∉ (Mpls.find_language_server env m).2.2) ∧
    (∀ r os arch d, env.registry = .ok r →
      platform env.os env.arch = .ok (os, arch) →
      derive os arch r.version = .ok d →
      env.fsExistsTrue d.executable = false →
      r.assets.find? (fun a => a.name == d.archived) = none →
      (Mpls.find_language_server env m).2.1 =
        .err "Can't find the executable in MPLS GitHub release.") := by
  have hspec := find_no_cache_no_which hm hw
  refine ⟨?_, ?_, ?_⟩
  · intro e hreg
    rw [hspec, hreg]
    exact ⟨rfl, rfl⟩
  · intro r hreg
    rw [hspec, hreg]
    dsimp only
    refine ⟨rfl, ?_⟩
    simp [when_online_no_readCurrentDir env m r]
  · intro r os arch d hreg hplat hder hex hfind
    rw [hspec, hreg]
    dsimp only
    unfold Mpls.when_online
    rw [hplat]
    dsimp only
    rw [hder]
    dsimp only
    rw [hex, hfind]
    rfl

/-- C3 witness: with an unreachable registry the resolution is the offline
provisioner's outcome after the query trace; with a reachable registry whose
release lacks the matching asset, resolution fails with the AssetNotFound
error instead of falling back. -/
theorem c3_fallback_witness :
    ((Mpls.find_language_server baseEnv Mpls.new).2.1 =
        (Mpls.when_offline baseEnv Mpls.new).2.1 ∧
      (Mpls.find_language_server baseEnv Mpls.new).2.2 =
        [Effect.whichLookup "mpls", Effect.setStatus .checkingForUpdate,
          Effect.queryRegistry] ++ (Mpls.when_offline baseEnv Mpls.new).2.2) ∧
    (Mpls.find_language_server envAnf Mpls.new).2.1 =
      .err "Can't find the executable in MPLS GitHub release." :=
  ⟨(c3_fallback baseEnv Mpls.new rfl rfl).1 "network unreachable" rfl,
   (c3_fallback envAnf Mpls.new rfl rfl).2.2 relAnf "linux" "amd64" dAnf
     rfl rfl rfl rfl rfl⟩

/-- C7: once a first call of language_server_command on a fresh instance
succeeds, a second call — under any environment — returns the identical cached
command, its only effect is the cleared-status broadcast (no network or
filesystem I/O), and the cache, once set, is never overwritten. -/
theorem c7_idempotent (env env' : Env) (m₁ : Mpls) (cmd : Command) (tr₁ : List Effect)
    (h : Mpls.language_server_command env Mpls.new = (m₁, .ok cmd, tr₁)) :
    Mpls.language_server_command env' m₁ = (m₁, .ok cmd, [Effect.setStatus .none]) ∧
    (∀ e ∈ (Mpls.language_server_command env' m₁).2.2, isIOEffect e = false) ∧
    m₁.language_server_path = some cmd.command ∧
    (∀ (env'' : Env) (p : String),
      Mpls.find_language_server env'' { language_server_path := some p } =
        ({ language_server_path := some p }, .ok (), [])) := by
  obtain ⟨hpath, hargs⟩ := lsc_ok_inv h
  have h2 : Mpls.language_server_command env' m₁ =
      (m₁, .ok cmd, [Effect.setStatus .none]) := by
    unfold Mpls.language_server_command
    rw [find_cached hpath]
    dsimp only
    rw [hpath]
    dsimp only
    rw [← hargs]
    rfl
  refine ⟨h2, ?_, hpath, ?_⟩
  · rw [h2]
    show ∀ e ∈ [Effect.setStatus Status.none], isIOEffect e = false
    decide
  · intro env'' p
    exact find_cached rfl

/-- C7 witness: an executable found on the search path resolves on the first
call; the second call under a different environment returns the identical
command with only the cleared-status broadcast. -/
theorem c7_idempotent_witness :
    Mpls.language_server_command baseEnv mplsCachedUsr =
      (mplsCachedUsr, .ok cmdUsr, [Effect.setStatus .none]) ∧
    (∀ e ∈ (Mpls.language_server_command baseEnv mplsCachedUsr).2.2,
      isIOEffect e = false) ∧
    mplsCachedUsr.language_server_path = some cmdUsr.command ∧
    (∀ (env'' : Env) (p : String),
      Mpls.find_language_server env'' { language_server_path := some p } =
        ({ language_server_path := some p }, .ok (), [])) :=
  c7_idempotent env7 baseEnv mplsCachedUsr cmdUsr
    [Effect.whichLookup "mpls", Effect.setStatus .none] rfl

/-- C8: every successful resolution, whatever provisioning path produced it,
returns a launch command whose arguments are exactly the three fixed flags in
order, applied to the resolved (cached) executable path. -/
theorem c8_launch_flags (env : Env) (m m' : Mpls) (cmd : Command) (tr : List Effect)
    (h : Mpls.language_server_command env m = (m', .ok cmd, tr)) :
    cmd.args = ["--enable-emoji", "--enable-wikilinks", "--enable-footnotes"] ∧
    m'.language_server_path = some cmd.command :=
  ⟨(lsc_ok_inv h).2, (lsc_ok_inv h).1⟩

/-- C8 witness at a cached resolution. -/
theorem c8_launch_flags_witness :
    cmdOpt.args = ["--enable-emoji", "--enable-wikilinks", "--enable-footnotes"] ∧
    mplsCachedOpt.language_server_path = some cmdOpt.command :=
  c8_launch_flags baseEnv mplsCachedOpt mplsCachedOpt cmdOpt
    [Effect.setStatus .none] rfl

/-- C9 witness: stripping a concrete 1-byte first character, and the panic of
the online provisioner on the empty version string. -/
theorem c9_version_slice_witness :
    stripFirstByte (String.mk ['v', '1']) = some (String.mk ['1']) ∧
    (Mpls.when_online env9 Mpls.new rel9).2.1 =
      .panic "byte index 1 is out of bounds or not a char boundary" :=
  ⟨c9_version_slice.1 'v' ['1'] (by decide),
   c9_version_slice.2.2.2 env9 Mpls.new rel9 "linux" "amd64" rfl rfl⟩
